import Mathlib

/-!
Verification of the cron scheduling and per-user task-manager core of the
`cica` personal-assistant bridge, against its specification.

The Rust source is embedded shallowly:

* machine integers (`u64`, `u32`, `usize`) become `Nat`, with an explicit
  `% 2 ^ 64` (resp. `% 2 ^ 32`) exactly where the Rust code can wrap;
* fallible operations (`Result`, panics) become `Except` / `Option`
  (`none` models a panic);
* the external libraries `croner` (cron-expression evaluation) and the
  chrono timezone database are modelled as explicit environment
  parameters (`CronEnv`, a local-offset parameter `off`), while the parts
  of chrono with fixed documented behaviour (the representable timestamp
  range, civil-calendar conversion for the formats `%Y-%m-%d %H:%M[:%S]`)
  are modelled concretely;
* the tokio concurrency of the scheduler tick loop and of the per-user
  task manager is modelled as an interleaving of the await-delimited
  atomic sections of the source, driven by explicit action lists.
-/

namespace Cica

/-! ## External environment: the croner cron-expression library

The source delegates cron-expression validation and next-occurrence search
to the external `croner` crate.  Both are kept abstract as an environment:
`cronParseOk e` models `Cron::new(e).parse().is_ok()` and
`cronFindNext e t` models `cron.find_next_occurrence(&t, false).ok()`
(returning the next occurrence in Unix milliseconds). -/
structure CronEnv where
  cronParseOk : String → Bool
  cronFindNext : String → Int → Option Int

/-- Modulus of Rust `u64` arithmetic. -/
def u64Mod : Nat := 2 ^ 64

/-- Rust `as i64` cast of a `u64` value (two's-complement wrap). -/
def u64AsI64 (n : Nat) : Int :=
  if n < 2 ^ 63 then (n : Int) else (n : Int) - (u64Mod : Int)

/-- Rust `as u64` cast of an `i64` value (two's-complement wrap). -/
def i64AsU64 (x : Int) : Nat := (x % (u64Mod : Int)).toNat

/-- Smallest timestamp (ms) representable by a chrono `DateTime`,
`NaiveDateTime::MIN.timestamp_millis()`: midnight of January 1 of year
-262144.  Derivation: the proleptic Gregorian calendar is periodic with
400 years = 146097 days, so the day count from -262144-01-01 to
1970-01-01 is 656 * 146097 - 93502 + 719528 = 96465658 days, where 93502
is the day count of years [0, 256) and 719528 that of years [0, 1970). -/
def chronoMinMs : Int := -8334632851200000

/-- Largest timestamp (ms) representable by a chrono `DateTime`,
`NaiveDateTime::MAX.timestamp_millis()`: the last millisecond of
262142-12-31.  Derivation: 1970-01-01 to 262142-01-01 is
650 * 146097 + 62822 = 95025872 days (62822 days in years [1970, 2142)),
plus 364 days to December 31, times 86400000, plus 86399999 ms. -/
def chronoMaxMs : Int := 8210266876799999

/-- Whether `DateTime::from_timestamp_millis` succeeds on this value. -/
def chronoInRange (x : Int) : Bool :=
  decide (chronoMinMs ≤ x) && decide (x ≤ chronoMaxMs)

/-! ## src/cron/schedule.rs — CronSchedule -/

/-- Supported schedule types for cron jobs (`CronSchedule` in
src/cron/schedule.rs).  Timestamps and intervals are Unix milliseconds
stored in `u64`. -/
inductive CronSchedule where
  | At (ts : Nat)
  | Every (interval : Nat)
  | Cron (expr : String)
deriving Repr, DecidableEq

/-- Model of `calculate_next_cron` (src/cron/schedule.rs:168-173):

1. `Cron::new(expr).parse().ok()?` — croner parse, via the environment;
2. `DateTime::from_timestamp_millis(after_ms as i64)?` — fails outside
   chrono's representable range;
3. `cron.find_next_occurrence(&after, false).ok()?` — via the environment;
4. `next.timestamp_millis() as u64`. -/
def calculate_next_cron (env : CronEnv) (expr : String) (after_ms : Nat) :
    Option Nat :=
  if env.cronParseOk expr then
    let x := u64AsI64 after_ms
    if chronoInRange x then
      match env.cronFindNext expr x with
      | some next => some (i64AsU64 next)
      | none => none
    else none
  else none

/-- Model of `CronSchedule::next_run_after` (src/cron/schedule.rs:53-65).
The `Every` addition is `u64` addition, hence the wrap. -/
def CronSchedule.next_run_after (env : CronEnv) (s : CronSchedule)
    (after_ms : Nat) : Option Nat :=
  match s with
  | .At ts => if after_ms < ts then some ts else none
  | .Every interval => some ((after_ms + interval) % u64Mod)
  | .Cron expr => calculate_next_cron env expr after_ms

/-! ## src/cron/store.rs — jobs and the persistent store -/

/-- Status of last job execution (`JobStatus`). -/
inductive JobStatus where
  | Pending
  | Running
  | Success
  | Failed (msg : String)
deriving Repr, DecidableEq

/-- Runtime state for a job (`CronJobState`). -/
structure CronJobState where
  next_run_at : Option Nat := none
  last_run_at : Option Nat := none
  last_status : JobStatus := .Pending
  last_duration_ms : Option Nat := none
  failure_count : Nat := 0
deriving Repr, DecidableEq

/-- A scheduled cron job (`CronJob`). -/
structure CronJob where
  id : String
  name : String := ""
  prompt : String := ""
  schedule : CronSchedule
  channel : String
  user_id : String
  notify : Bool := true
  enabled : Bool := true
  created_at : Nat := 0
  state : CronJobState := {}
deriving Repr, DecidableEq

/-- Model of `CronJob::is_due` (src/cron/store.rs:138-140):
`self.enabled && self.state.next_run_at.is_some_and(|t| t <= now_ms)`. -/
def CronJob.is_due (j : CronJob) (now_ms : Nat) : Bool :=
  j.enabled &&
    (match j.state.next_run_at with
     | some t => decide (t ≤ now_ms)
     | none => false)

/-- The in-memory job table (`CronStore`): a `HashMap<JobId, CronJob>`,
modelled as the list of its values (each job carries its key `id`). -/
structure CronStore where
  jobs : List CronJob
deriving Repr, DecidableEq

/-- `self.jobs.get(id)` — lookup by key. -/
def CronStore.getJob (s : CronStore) (id : String) : Option CronJob :=
  s.jobs.find? (fun j => j.id == id)

/-- `self.jobs.insert(id, job)` — replace the entry with this key, or
append a new one. -/
def CronStore.insertJob (s : CronStore) (job : CronJob) : CronStore :=
  if (s.jobs.find? (fun j => j.id == job.id)).isSome then
    { jobs := s.jobs.map (fun j => if j.id == job.id then job else j) }
  else
    { jobs := s.jobs ++ [job] }

/-- `self.jobs.remove(id)` — drop the entry with this key. -/
def CronStore.eraseJob (s : CronStore) (id : String) : CronStore :=
  { jobs := s.jobs.filter (fun j => !(j.id == id)) }

/-- In-place mutation through `self.jobs.get_mut(id)`. -/
def CronStore.updateJob (s : CronStore) (id : String) (f : CronJob → CronJob) :
    CronStore :=
  { jobs := s.jobs.map (fun j => if j.id == id then f j else j) }

/-- Model of `CronStore::get_due_jobs` (src/cron/store.rs:237-239). -/
def CronStore.get_due_jobs (s : CronStore) (now_ms : Nat) : List CronJob :=
  s.jobs.filter (fun j => j.is_due now_ms)

/-- Model of `CronStore::list_for_user` (src/cron/store.rs:217-222). -/
def CronStore.list_for_user (s : CronStore) (channel user_id : String) :
    List CronJob :=
  s.jobs.filter (fun j => j.channel == channel && j.user_id == user_id)

/-- A store handle together with its on-disk snapshot: `CronStore::save`
overwrites the whole snapshot with the in-memory contents. -/
structure StoreSys where
  mem : CronStore
  disk : CronStore
deriving Repr, DecidableEq

/-- Model of `CronStore::add` (src/cron/store.rs:191-197).  `saveOk`
models whether the `save()?` call succeeds; the insertion into the
in-memory map happens before the save, and is not rolled back when the
save fails. -/
def storeAdd (sys : StoreSys) (job : CronJob) (saveOk : Bool) :
    StoreSys × Except String String :=
  let mem' := sys.mem.insertJob job
  if saveOk then ({ mem := mem', disk := mem' }, .ok job.id)
  else ({ sys with mem := mem' }, .error "save failed")

/-- Model of `CronStore::remove` (src/cron/store.rs:200-214): bail out
with an ownership error when the job exists under a different owner;
otherwise remove, and save only when something was removed. -/
def storeRemove (sys : StoreSys) (id channel user_id : String)
    (saveOk : Bool) : StoreSys × Except String (Option CronJob) :=
  match sys.mem.getJob id with
  | some j =>
    if j.channel == channel && j.user_id == user_id then
      let mem' := sys.mem.eraseJob id
      if saveOk then ({ mem := mem', disk := mem' }, .ok (some j))
      else ({ sys with mem := mem' }, .error "save failed")
    else (sys, .error "You don't own this job")
  | none => (sys, .ok none)

/-! ## src/cron/mod.rs — execute_job

`execute_job` runs in a spawned task and performs two store transactions
around the awaited backend call:

1. mark the stored job `Running` and clear `next_run_at` (then save,
   ignoring save errors);
2. after the backend call returns, record run metadata, recompute
   `next_run_at` from the completion time and, when the schedule is `At`
   and the call succeeded, disable the job (then save, ignoring errors).

The backend call itself (context building plus `claude::query_with_options`)
is external; its outcome enters the model as `result`. -/

/-- First store transaction of `execute_job` (src/cron/mod.rs:245-253),
applied to the stored job when it is still present. -/
def execJobMark (j : CronJob) : CronJob :=
  { j with state := { j.state with last_status := .Running, next_run_at := none } }

/-- Second store transaction of `execute_job` (src/cron/mod.rs:283-311),
applied to the stored job when it is still present.  `duration_ms` is the
`u64` difference `end_time - start_time` (truncated; the Rust subtraction
would panic in debug builds if the clock went backwards).  The
`failure_count` increment is `u32` arithmetic. -/
def execJobFinish (env : CronEnv) (result : Except String String)
    (start_time end_time : Nat) (j : CronJob) : CronJob :=
  let st0 := { j.state with
    last_run_at := some end_time,
    last_duration_ms := some (end_time - start_time) }
  let st1 :=
    match result with
    | .ok _ => { st0 with last_status := .Success, failure_count := 0 }
    | .error e =>
      { st0 with last_status := .Failed e,
                 failure_count := (st0.failure_count + 1) % 2 ^ 32 }
  let st2 := { st1 with next_run_at := j.schedule.next_run_after env end_time }
  let j' := { j with state := st2 }
  match j.schedule, result with
  | .At _, .ok _ =>
    { j' with enabled := false, state := { j'.state with next_run_at := none } }
  | _, _ => j'

/-- The store contents after `execute_job` for job `job_id` has run both
of its transactions with no interference in between. -/
def execute_job (env : CronEnv) (store : CronStore) (job_id : String)
    (result : Except String String) (start_time end_time : Nat) : CronStore :=
  (store.updateJob job_id execJobMark).updateJob job_id
    (execJobFinish env result start_time end_time)

/-! ## src/cron/mod.rs — the scheduler tick loop as a transition system

The tick loop (`CronService::start`, src/cron/mod.rs:83-133) and the
spawned `execute_job` tasks share the store mutex and the on-disk
snapshot.  Their await-delimited atomic sections become the actions of a
transition system:

* `tick now` — one loop iteration: reload the in-memory store from disk
  (the successful-load case), snapshot the due jobs, and spawn one
  execution task per due job (the tasks have not run yet);
* `mark tid saveOk` — the spawned task's first section: mark Running,
  clear `next_run_at`, save (best-effort);
* `finish tid result start end saveOk` — the section after the backend
  call: record the outcome, recompute `next_run_at`, save (best-effort).

`saveOk` models whether the corresponding `save()` call succeeds (its
error is ignored by `execute_job`). -/

/-- Progress of one spawned `execute_job` task. -/
inductive TPhase where
  | start
  | invoking
  | done
deriving Repr, DecidableEq

/-- One spawned `execute_job` task: identifier, the due-job snapshot it
was spawned with, and its progress. -/
structure STask where
  tid : Nat
  job : CronJob
  phase : TPhase
deriving Repr, DecidableEq

/-- State shared by the tick loop and the spawned execution tasks. -/
structure SchedState where
  disk : CronStore
  mem : CronStore
  tasks : List STask
  nextTid : Nat
deriving Repr, DecidableEq

/-- Atomic sections of the scheduler, as schedulable actions. -/
inductive SchedAction where
  | tick (now : Nat)
  | mark (tid : Nat) (saveOk : Bool)
  | finish (tid : Nat) (result : Except String String)
      (start_time end_time : Nat) (saveOk : Bool)

/-- Spawn one execution task per due job, with consecutive fresh ids. -/
def spawnTasks (base : Nat) : List CronJob → List STask
  | [] => []
  | j :: rest => ⟨base, j, .start⟩ :: spawnTasks (base + 1) rest

/-- One atomic section of the scheduler system. -/
def schedStep (env : CronEnv) (s : SchedState) (a : SchedAction) : SchedState :=
  match a with
  | .tick now =>
    let mem' := s.disk
    let due := mem'.get_due_jobs now
    { s with
      mem := mem'
      tasks := s.tasks ++ spawnTasks s.nextTid due
      nextTid := s.nextTid + due.length }
  | .mark tid saveOk =>
    match s.tasks.find? (fun t => t.tid == tid) with
    | some t =>
      if t.phase = .start then
        let mem' := s.mem.updateJob t.job.id execJobMark
        { s with
          mem := mem'
          disk := if saveOk then mem' else s.disk
          tasks := s.tasks.map
            (fun u => if u.tid == tid then { u with phase := .invoking } else u) }
      else s
    | none => s
  | .finish tid result st et saveOk =>
    match s.tasks.find? (fun t => t.tid == tid) with
    | some t =>
      if t.phase = .invoking then
        let mem' := s.mem.updateJob t.job.id (execJobFinish env result st et)
        { s with
          mem := mem'
          disk := if saveOk then mem' else s.disk
          tasks := s.tasks.map
            (fun u => if u.tid == tid then { u with phase := .done } else u) }
      else s
    | none => s

/-- Run a list of scheduler actions. -/
def schedRun (env : CronEnv) (s : SchedState) (acts : List SchedAction) :
    SchedState :=
  acts.foldl (schedStep env) s

/-! ## src/channels/mod.rs — UserTaskManager as a transition system

`UserTaskManager::process_message` (src/channels/mod.rs:333-393) has two
critical sections (two separate mutex acquisitions), and each spawned
debounce task has two more around its `handler(messages).await`.  Their
await-delimited atomic sections become the actions of a transition
system.  Aborting a task (`JoinHandle::abort`) is abrupt: an aborted task
takes no further action — faithful for an interleaving of sections
delimited by await points, since an abort lands at such a point. -/

/-- Progress of a spawned debounce task. -/
inductive PPhase where
  | sleeping
  | handling (batch : List String)
  | done
  | aborted
deriving Repr, DecidableEq

/-- One spawned debounce task. -/
structure PTask where
  pid : Nat
  user : String
  phase : PPhase
deriving Repr, DecidableEq

/-- Observable handler events, in order of occurrence. -/
inductive TMEvent where
  | handlerStart (pid : Nat) (user : String) (batch : List String)
  | handlerEnd (pid : Nat)
deriving Repr, DecidableEq

/-- State of the task manager: the `pending` per-user message queues, the
`tasks` map from user key to active task handle (here: task id), the
spawned tasks, and the event trace. -/
structure TMState where
  pending : List (String × List String) := []
  running : List (String × Nat) := []
  procs : List PTask := []
  nextPid : Nat := 0
  events : List TMEvent := []
deriving Repr, DecidableEq

/-- Lookup in an association list keyed by user. -/
def alistGet (l : List (String × α)) (u : String) : Option α :=
  (l.find? (fun p => p.1 == u)).map Prod.snd

/-- Remove the entry keyed by user. -/
def alistRemove (l : List (String × α)) (u : String) : List (String × α) :=
  l.filter (fun p => !(p.1 == u))

/-- Insert or replace the entry keyed by user. -/
def alistSet (l : List (String × α)) (u : String) (a : α) : List (String × α) :=
  if (l.find? (fun p => p.1 == u)).isSome then
    l.map (fun p => if p.1 == u then (u, a) else p)
  else l ++ [(u, a)]

/-- Atomic sections of the task manager, as schedulable actions:

* `push u m` — first section of `process_message`: append the message to
  the user's pending queue (creating it if absent);
* `swap u` — second section of `process_message`: abort the user's
  active task if any, spawn the new debounce task, record its handle;
* `wake p` — the debounce sleep of task `p` expires: drain the user's
  pending queue; return silently when it is empty, otherwise invoke the
  handler;
* `finishH p` — the handler invocation of task `p` returns: remove the
  user's entry from the `tasks` map. -/
inductive TMAction where
  | push (user msg : String)
  | swap (user : String)
  | wake (pid : Nat)
  | finishH (pid : Nat)

/-- One atomic section of the task manager. -/
def tmStep (s : TMState) (a : TMAction) : TMState :=
  match a with
  | .push u m =>
    { s with pending := alistSet s.pending u ((alistGet s.pending u).getD [] ++ [m]) }
  | .swap u =>
    { s with
      procs := s.procs.map (fun p =>
          if alistGet s.running u == some p.pid && !(p.phase == .done) then
            { p with phase := .aborted }
          else p) ++ [⟨s.nextPid, u, .sleeping⟩]
      running := alistSet s.running u s.nextPid
      nextPid := s.nextPid + 1 }
  | .wake pid =>
    match s.procs.find? (fun p => p.pid == pid) with
    | some p =>
      if p.phase = .sleeping then
        if ((alistGet s.pending p.user).getD []).isEmpty then
          { s with
            pending := alistRemove s.pending p.user
            procs := s.procs.map (fun q =>
              if q.pid == pid then { q with phase := .done } else q) }
        else
          { s with
            pending := alistRemove s.pending p.user
            procs := s.procs.map (fun q =>
              if q.pid == pid then
                { q with phase := .handling ((alistGet s.pending p.user).getD []) }
              else q)
            events := s.events ++
              [.handlerStart pid p.user ((alistGet s.pending p.user).getD [])] }
      else s
    | none => s
  | .finishH pid =>
    match s.procs.find? (fun p => p.pid == pid) with
    | some p =>
      match p.phase with
      | .handling _ =>
        { s with
          procs := s.procs.map (fun q =>
            if q.pid == pid then { q with phase := .done } else q)
          running := alistRemove s.running p.user
          events := s.events ++ [.handlerEnd pid] }
      | _ => s
    | none => s

/-- Run a list of task-manager actions from the empty initial state. -/
def tmRun (acts : List TMAction) : TMState :=
  acts.foldl tmStep {}

/-- Whether a task is currently inside a handler invocation. -/
def PTask.isHandling (p : PTask) : Bool :=
  match p.phase with
  | .handling _ => true
  | _ => false

/-- Whether a task is still scheduled to run or is running its handler
(neither finished nor aborted). -/
def PTask.isLive (p : PTask) : Bool :=
  match p.phase with
  | .sleeping => true
  | .handling _ => true
  | _ => false

/-- Structural invariant of the task manager: task ids are bounded by the
id counter and pairwise distinct, and every live task is the one recorded
in the `tasks` map for its user — hence at most one live task, and in
particular at most one running handler, per user key. -/
def TMInv (s : TMState) : Prop :=
  (∀ p ∈ s.procs, p.pid < s.nextPid) ∧
  List.Pairwise (fun p q => p.pid ≠ q.pid) s.procs ∧
  ∀ p ∈ s.procs, p.isLive = true → alistGet s.running p.user = some p.pid

/-! ## src/cron/mod.rs — truncate_for_name

`truncate_for_name` (src/cron/mod.rs:398-405) trims the string and, when
the trimmed string is longer than `max_len` bytes, renders
`format!("{}...", &s[..max_len - 3])`.  Strings are modelled as lists of
Unicode scalar values; `&s[..k]` panics unless `k` lands on a UTF-8
character boundary, and `max_len - 3` underflows for `max_len < 3`.
`none` models a panic. -/

/-- The Unicode White_Space property, as used by Rust `str::trim`. -/
def rustCharIsWhitespace (c : Char) : Bool :=
  [9, 10, 11, 12, 13, 32, 0x85, 0xA0, 0x1680,
   0x2000, 0x2001, 0x2002, 0x2003, 0x2004, 0x2005, 0x2006, 0x2007,
   0x2008, 0x2009, 0x200A, 0x2028, 0x2029, 0x202F, 0x205F, 0x3000].contains c.toNat

/-- Rust `str::trim`. -/
def rustTrim (s : List Char) : List Char :=
  ((s.dropWhile rustCharIsWhitespace).reverse.dropWhile rustCharIsWhitespace).reverse

/-- Rust `str::len`: length in UTF-8 bytes. -/
def utf8Len (s : List Char) : Nat := (s.map Char.utf8Size).sum

/-- Rust `&s[..k]`: the prefix of `s` occupying exactly `k` UTF-8 bytes,
or `none` (a panic) when `k` is not a character boundary or exceeds the
length. -/
def takeBytes : Nat → List Char → Option (List Char)
  | 0, _ => some []
  | _ + 1, [] => none
  | k + 1, c :: cs =>
    if c.utf8Size ≤ k + 1 then
      (takeBytes (k + 1 - c.utf8Size) cs).map (c :: ·)
    else none

/-- Model of `truncate_for_name` (src/cron/mod.rs:398-405); `none` is a
panic. -/
def truncate_for_name (s : List Char) (max_len : Nat) : Option (List Char) :=
  let t := rustTrim s
  if utf8Len t ≤ max_len then some t
  else if max_len < 3 then none
  else (takeBytes (max_len - 3) t).map (· ++ ['.', '.', '.'])

/-! ## src/cron/schedule.rs — description and parse

`CronSchedule::description` renders `At` timestamps through chrono as
`"at %Y-%m-%d %H:%M"` in the local timezone (falling back to the raw
number when the timestamp is outside chrono's range), `Every` intervals
through `format_duration`, and `Cron` expressions verbatim.
`CronSchedule::parse` dispatches on the `"at "` / `"every "` prefixes.

The rendered strings are modelled one level up, as the data they carry
(`SchedText`): chrono's `format`/`parse_from_str` pair for the formats
involved is injective on these fields, and Rust's integer
`Display`/`FromStr` pair round-trips, so string-level equality
coincides with field-level equality.  The local timezone is modelled as
a fixed offset `off` in milliseconds east of UTC (for which
`Local.from_local_datetime(..).single()` always succeeds); the
proleptic Gregorian conversion underlying chrono is defined concretely
below for dates from 1970 on. -/

/-- Leap year in the proleptic Gregorian calendar. -/
def isLeap (y : Nat) : Bool :=
  (y % 4 == 0 && y % 100 != 0) || y % 400 == 0

/-- Days in a Gregorian year. -/
def daysInYear (y : Nat) : Nat := if isLeap y then 366 else 365

/-- Days in month `m` (1-12) of year `y`. -/
def daysInMonth (y m : Nat) : Nat :=
  match m with
  | 1 => 31
  | 2 => if isLeap y then 29 else 28
  | 3 => 31
  | 4 => 30
  | 5 => 31
  | 6 => 30
  | 7 => 31
  | 8 => 31
  | 9 => 30
  | 10 => 31
  | 11 => 30
  | 12 => 31
  | _ => 0

/-- Total days in the `n` consecutive years starting at `start`. -/
def daysInYearsFrom (start : Nat) : Nat → Nat
  | 0 => 0
  | n + 1 => daysInYearsFrom start n + daysInYear (start + n)

/-- Days from 1970-01-01 to January 1 of year `y` (for `y ≥ 1970`). -/
def daysBeforeYear (y : Nat) : Nat := daysInYearsFrom 1970 (y - 1970)

/-- Days from January 1 to the first of month `m` in year `y`. -/
def daysBeforeMonth (y : Nat) : Nat → Nat
  | 0 => 0
  | m + 1 => daysBeforeMonth y m + if m = 0 then 0 else daysInMonth y m

/-- Resolve a day count into (year, day-of-year), walking forward from
year `y`; `fuel ≥ d` suffices since every step consumes at least 365
days. -/
def yearFromDays : Nat → Nat → Nat → Nat × Nat
  | 0, y, d => (y, d)
  | fuel + 1, y, d =>
    if d < daysInYear y then (y, d) else yearFromDays fuel (y + 1) (d - daysInYear y)

/-- Resolve a day-of-year into (month, day-of-month minus 1), walking
forward from month `m`. -/
def monthFromDoy : Nat → Nat → Nat → Nat → Nat × Nat
  | 0, _, m, d => (m, d)
  | fuel + 1, y, m, d =>
    if d < daysInMonth y m then (m, d) else monthFromDoy fuel y (m + 1) (d - daysInMonth y m)

/-- Civil date (year, month, day) of the day `d` days after 1970-01-01. -/
def civilFromDays (d : Nat) : Nat × Nat × Nat :=
  let yr := yearFromDays d 1970 d
  let mr := monthFromDoy 12 yr.1 1 yr.2
  (yr.1, mr.1, mr.2 + 1)

/-- Day count from 1970-01-01 of the civil date (y, m, d), `y ≥ 1970`. -/
def daysFromCivil (y m d : Nat) : Nat :=
  daysBeforeYear y + daysBeforeMonth y m + (d - 1)

/-- The civil datetime fields carried by a rendered datetime string.
`second = none` for the minute-precision format `%Y-%m-%d %H:%M`. -/
structure DateFields where
  year : Nat
  month : Nat
  day : Nat
  hour : Nat
  minute : Nat
  second : Option Nat
deriving Repr, DecidableEq

/-- Duration units accepted or produced by the surface syntax. -/
inductive DurUnit where
  | s
  | m
  | h
  | d
  | ms
deriving Repr, DecidableEq

/-- Milliseconds per unit. -/
def unitMillis : DurUnit → Nat
  | .s => 1000
  | .m => 60000
  | .h => 3600000
  | .d => 86400000
  | .ms => 1

/-- The data carried by a rendered schedule string. -/
inductive SchedText where
  | atFields (f : DateFields)
  | atRaw (n : Nat)
  | everyTok (n : Nat) (u : DurUnit)
  | cronRaw (expr : String)
deriving Repr, DecidableEq

/-- Model of `format_duration` (src/cron/schedule.rs:117-129). -/
def format_duration (ms : Nat) : SchedText :=
  if 86400000 ≤ ms ∧ ms % 86400000 = 0 then .everyTok (ms / 86400000) .d
  else if 3600000 ≤ ms ∧ ms % 3600000 = 0 then .everyTok (ms / 3600000) .h
  else if 60000 ≤ ms ∧ ms % 60000 = 0 then .everyTok (ms / 60000) .m
  else if 1000 ≤ ms ∧ ms % 1000 = 0 then .everyTok (ms / 1000) .s
  else .everyTok ms .ms

/-- The datetime fields chrono renders for local timestamp `x` (ms since
the local epoch, `x ≥ 0`) under format `%Y-%m-%d %H:%M`. -/
def fieldsFromMs (x : Nat) : DateFields :=
  let c := civilFromDays (x / 86400000)
  let rem := x % 86400000
  { year := c.1, month := c.2.1, day := c.2.2,
    hour := rem / 3600000, minute := rem % 3600000 / 60000, second := none }

/-- Model of `CronSchedule::description` (src/cron/schedule.rs:68-79) for
local offset `off` (ms east of UTC): `At` goes through
`DateTime::from_timestamp_millis(ts as i64)`, falling back to the raw
number when that fails, and is rendered in local time at minute
precision. -/
def CronSchedule.description (off : Int) (s : CronSchedule) : SchedText :=
  match s with
  | .At ts =>
    if chronoInRange (u64AsI64 ts) then
      .atFields (fieldsFromMs ((ts : Int) + off).toNat)
    else .atRaw ts
  | .Every ms => format_duration ms
  | .Cron expr => .cronRaw expr

/-- Chrono `parse_from_str` field validation for the formats involved
(month and day within range, hour/minute/second within range).  The model
additionally requires `year ≥ 1970`, the domain of the civil conversion
above. -/
def validFields (f : DateFields) : Bool :=
  1970 ≤ f.year && 1 ≤ f.month && f.month ≤ 12 &&
    1 ≤ f.day && f.day ≤ daysInMonth f.year f.month &&
    f.hour < 24 && f.minute < 60 && f.second.getD 0 < 60

/-- Local milliseconds denoted by a valid field tuple. -/
def msFromFields (f : DateFields) : Nat :=
  daysFromCivil f.year f.month f.day * 86400000 +
    f.hour * 3600000 + f.minute * 60000 + f.second.getD 0 * 1000

/-- Model of `parse_datetime` (src/cron/schedule.rs:133-157) at field
level: interpret the fields as a local datetime at offset `off` and
return `dt.timestamp_millis() as u64`. -/
def parse_datetime (off : Int) (f : DateFields) : Except String Nat :=
  if validFields f then
    .ok (i64AsU64 ((msFromFields f : Int) - off))
  else .error "Invalid datetime"

/-- Model of `parse_duration` (src/cron/schedule.rs:83-114): the unit
`ms` is not accepted (`Invalid unit`); the multiplication is `u64`. -/
def parse_duration (n : Nat) (u : DurUnit) : Except String Nat :=
  match u with
  | .ms => .error "Invalid unit: ms. Use s/m/h/d"
  | u => .ok (n * unitMillis u % u64Mod)

/-- Model of `CronSchedule::parse` (src/cron/schedule.rs:31-49) on the
data carried by the input string: an `"at "` prefix goes to
`parse_datetime` (a raw number after `"at "` matches no chrono format),
an `"every "` prefix to `parse_duration`, and anything else is validated
as a cron expression. -/
def CronSchedule.parse (env : CronEnv) (off : Int) (t : SchedText) :
    Except String CronSchedule :=
  match t with
  | .atFields f => (parse_datetime off f).map .At
  | .atRaw _ => .error "Invalid datetime"
  | .everyTok n u => (parse_duration n u).map .Every
  | .cronRaw e =>
    if env.cronParseOk e then .ok (.Cron e) else .error "Invalid cron expression"

/-! ## Concrete instantiation material -/

/-- An environment instance for concrete evaluation: every expression is
accepted by croner (true in particular of "* * * * *"), and the
next-occurrence search is immaterial for the facts evaluated under it. -/
def envTrivial : CronEnv := ⟨fun _ => true, fun _ _ => some 0⟩

/-- A sample recurring job. -/
def jobA : CronJob :=
  { id := "job-a", schedule := .Every 100, channel := "telegram",
    user_id := "u1", state := { next_run_at := some 50 } }

/-- A sample one-shot job, due at 500. -/
def jobAt : CronJob :=
  { id := "job-at", schedule := .At 500, channel := "telegram",
    user_id := "u1", state := { next_run_at := some 500 } }

/-! ## Claim theorems -/

/-- C9: for an `At(ts)` schedule, `next_run_after(t)` is `Some(ts)` when
`t < ts` and `None` when `ts <= t`. -/
theorem c9_at_next_run (env : CronEnv) (ts t : Nat) :
    (t < ts → CronSchedule.next_run_after env (.At ts) t = some ts) ∧
    (ts ≤ t → CronSchedule.next_run_after env (.At ts) t = none) := by
  constructor <;> intro h <;>
    simp [CronSchedule.next_run_after, h, Nat.not_lt.mpr]

/-- C9 witness: both cases at concrete inputs. -/
theorem c9_at_next_run_witness :
    CronSchedule.next_run_after envTrivial (.At 5000) 1000 = some 5000 ∧
    CronSchedule.next_run_after envTrivial (.At 5000) 6000 = none :=
  ⟨(c9_at_next_run envTrivial 5000 1000).1 (by decide),
   (c9_at_next_run envTrivial 5000 6000).2 (by decide)⟩

/-- C4, counterexample: a `Cron` schedule can return `None`: for a
reference time beyond chrono's representable range
(`DateTime::from_timestamp_millis` fails), `next_run_after` is `None`
even for the always-matching expression "* * * * *" — the claim that
every `Cron` schedule returns `Some` for every reference time is false. -/
theorem c4_cron_none_counterexample :
    CronSchedule.next_run_after envTrivial (.Cron "* * * * *") (10 ^ 18) =
      none := by decide

/-- C4 (amended): `next_run_after(t)` is a pure function of the schedule
and `t` (determinism is definitional), `Every` schedules always return
`Some`, and `None` occurs only for an `At` schedule whose timestamp is
`<= t` or for a `Cron` schedule (croner parse failure, reference time
outside chrono's range, or no next occurrence found). -/
theorem c4_next_run_none_cases (env : CronEnv) (s : CronSchedule) (t : Nat) :
    (CronSchedule.next_run_after env s t = none →
      (∃ ts, s = .At ts ∧ ts ≤ t) ∨ ∃ e, s = .Cron e) ∧
    ∀ i, (CronSchedule.next_run_after env (.Every i) t).isSome = true := by
  refine ⟨fun h => ?_, fun i => by simp [CronSchedule.next_run_after]⟩
  match s with
  | .At ts =>
    left
    refine ⟨ts, rfl, ?_⟩
    by_cases hlt : t < ts
    · simp [CronSchedule.next_run_after, hlt] at h
    · omega
  | .Every i => simp [CronSchedule.next_run_after] at h
  | .Cron e => exact Or.inr ⟨e, rfl⟩

/-- C4 witness: the `None` case characterisation applied at an elapsed
`At` schedule, and the `Every` totality at a concrete interval. -/
theorem c4_next_run_none_cases_witness :
    ((∃ ts, CronSchedule.At 5 = CronSchedule.At ts ∧ ts ≤ 10) ∨
      ∃ e, CronSchedule.At 5 = CronSchedule.Cron e) ∧
    (CronSchedule.next_run_after envTrivial (.Every 7) 10).isSome = true :=
  ⟨(c4_next_run_none_cases envTrivial (.At 5) 10).1 (by decide),
   (c4_next_run_none_cases envTrivial (.At 5) 10).2 7⟩

/-- C7: every job returned by `get_due_jobs(now)` is enabled and carries
`next_run_at = Some t` with `t <= now`; disabled jobs and jobs without a
`next_run_at` are never returned. -/
theorem c7_get_due_jobs_sound (s : CronStore) (now : Nat) (j : CronJob)
    (h : j ∈ s.get_due_jobs now) :
    j.enabled = true ∧ ∃ t, j.state.next_run_at = some t ∧ t ≤ now := by
  have hdue : j.is_due now = true := (List.mem_filter.mp h).2
  unfold CronJob.is_due at hdue
  cases hnr : j.state.next_run_at with
  | none => rw [hnr] at hdue; simp at hdue
  | some t =>
    rw [hnr] at hdue
    simp at hdue
    exact ⟨hdue.1, t, rfl, hdue.2⟩

/-- C7 witness: a concrete due job in a concrete store. -/
theorem c7_get_due_jobs_sound_witness :
    jobA.enabled = true ∧
    ∃ t, jobA.state.next_run_at = some t ∧ t ≤ 100 :=
  c7_get_due_jobs_sound ⟨[jobA]⟩ 100 jobA (by decide)

/-- C2, counterexample: `CronStore::add` inserts into the in-memory map
before saving and does not roll back, so a failed save returns an error
while the in-memory store differs from the (unchanged) on-disk snapshot —
the claim that a failed mutation leaves the in-memory store unchanged is
false. -/
theorem c2_add_counterexample :
    (storeAdd ⟨⟨[]⟩, ⟨[]⟩⟩ jobA false).2 = .error "save failed" ∧
    (storeAdd ⟨⟨[]⟩, ⟨[]⟩⟩ jobA false).1.mem ≠ (⟨[]⟩ : CronStore) ∧
    (storeAdd ⟨⟨[]⟩, ⟨[]⟩⟩ jobA false).1.disk = (⟨[]⟩ : CronStore) := by
  refine ⟨rfl, ?_, rfl⟩
  intro h
  simp [storeAdd, CronStore.insertJob, CronStore.getJob] at h

/-- C2 (amended): a successful `add`/`remove` fully persists before
returning (the snapshot equals the new in-memory contents); a failed save
returns an error with the on-disk snapshot unchanged, but the in-memory
map already carries the mutation (callers must treat the operation as
not-committed and discard or reload the store); `remove` performs no save
at all when it rejects a non-owner or finds no job. -/
theorem c2_persistence_cases (sys : StoreSys) (job j : CronJob)
    (id ch uid : String) :
    (storeAdd sys job true =
      ({ mem := sys.mem.insertJob job, disk := sys.mem.insertJob job },
        .ok job.id)) ∧
    (storeAdd sys job false =
      ({ sys with mem := sys.mem.insertJob job }, .error "save failed")) ∧
    (sys.mem.getJob id = some j → j.channel = ch → j.user_id = uid →
      storeRemove sys id ch uid true =
        ({ mem := sys.mem.eraseJob id, disk := sys.mem.eraseJob id },
          .ok (some j))) ∧
    (sys.mem.getJob id = some j → j.channel = ch → j.user_id = uid →
      storeRemove sys id ch uid false =
        ({ sys with mem := sys.mem.eraseJob id }, .error "save failed")) ∧
    (sys.mem.getJob id = some j → ¬(j.channel = ch ∧ j.user_id = uid) →
      ∀ saveOk, storeRemove sys id ch uid saveOk =
        (sys, .error "You don't own this job")) ∧
    (sys.mem.getJob id = none →
      ∀ saveOk, storeRemove sys id ch uid saveOk = (sys, .ok none)) := by
  refine ⟨rfl, rfl, ?_, ?_, ?_, ?_⟩
  · intro hj hch huid
    simp [storeRemove, hj, hch, huid]
  · intro hj hch huid
    simp [storeRemove, hj, hch, huid]
  · intro hj hne saveOk
    rcases Decidable.not_and_iff_or_not.mp hne with h | h <;>
      simp [storeRemove, hj, h]
  · intro hj saveOk
    simp [storeRemove, hj]

/-- C2 witness: all six cases at concrete stores. -/
theorem c2_persistence_cases_witness :
    (storeAdd ⟨⟨[]⟩, ⟨[]⟩⟩ jobA true =
      ({ mem := CronStore.insertJob ⟨[]⟩ jobA,
         disk := CronStore.insertJob ⟨[]⟩ jobA }, .ok jobA.id)) ∧
    (storeRemove ⟨⟨[jobA]⟩, ⟨[jobA]⟩⟩ "job-a" "telegram" "u1" true =
      ({ mem := CronStore.eraseJob ⟨[jobA]⟩ "job-a",
         disk := CronStore.eraseJob ⟨[jobA]⟩ "job-a" }, .ok (some jobA))) ∧
    (storeRemove ⟨⟨[jobA]⟩, ⟨[jobA]⟩⟩ "job-a" "signal" "u2" true =
      (⟨⟨[jobA]⟩, ⟨[jobA]⟩⟩, .error "You don't own this job")) ∧
    (storeRemove ⟨⟨[jobA]⟩, ⟨[jobA]⟩⟩ "nope" "telegram" "u1" true =
      (⟨⟨[jobA]⟩, ⟨[jobA]⟩⟩, .ok none)) :=
  ⟨(c2_persistence_cases ⟨⟨[]⟩, ⟨[]⟩⟩ jobA jobA "x" "x" "x").1,
   (c2_persistence_cases ⟨⟨[jobA]⟩, ⟨[jobA]⟩⟩ jobA jobA "job-a" "telegram"
      "u1").2.2.1 (by decide) (by decide) (by decide),
   ((c2_persistence_cases ⟨⟨[jobA]⟩, ⟨[jobA]⟩⟩ jobA jobA "job-a" "signal"
      "u2").2.2.2.2.1 (by decide) (by decide) true),
   ((c2_persistence_cases ⟨⟨[jobA]⟩, ⟨[jobA]⟩⟩ jobA jobA "nope" "telegram"
      "u1").2.2.2.2.2 (by decide) true)⟩

/-- C6: `remove(id, channel, user_id)` fails with an ownership error and
leaves both the in-memory store and the on-disk snapshot unchanged when
the job exists under a different owner; returns `Ok(None)` (not an error)
when no job with that id exists; and on an owner match removes the job
and persists the store before returning it. -/
theorem c6_remove_ownership (sys : StoreSys) (id ch uid : String)
    (j : CronJob) (saveOk : Bool) :
    (sys.mem.getJob id = some j → ¬(j.channel = ch ∧ j.user_id = uid) →
      storeRemove sys id ch uid saveOk =
        (sys, .error "You don't own this job")) ∧
    (sys.mem.getJob id = none →
      storeRemove sys id ch uid saveOk = (sys, .ok none)) ∧
    (sys.mem.getJob id = some j → j.channel = ch → j.user_id = uid →
      storeRemove sys id ch uid true =
        ({ mem := sys.mem.eraseJob id, disk := sys.mem.eraseJob id },
          .ok (some j))) := by
  refine ⟨?_, ?_, ?_⟩
  · intro hj hne
    rcases Decidable.not_and_iff_or_not.mp hne with h | h <;>
      simp [storeRemove, hj, h]
  · intro hj; simp [storeRemove, hj]
  · intro hj hch huid
    simp [storeRemove, hj, hch, huid]

/-- C6 witness: the three cases at concrete stores. -/
theorem c6_remove_ownership_witness :
    (storeRemove ⟨⟨[jobA]⟩, ⟨[jobA]⟩⟩ "job-a" "signal" "u2" true =
      (⟨⟨[jobA]⟩, ⟨[jobA]⟩⟩, .error "You don't own this job")) ∧
    (storeRemove ⟨⟨[jobA]⟩, ⟨[jobA]⟩⟩ "nope" "signal" "u2" true =
      (⟨⟨[jobA]⟩, ⟨[jobA]⟩⟩, .ok none)) ∧
    (storeRemove ⟨⟨[jobA]⟩, ⟨[jobA]⟩⟩ "job-a" "telegram" "u1" true =
      ({ mem := CronStore.eraseJob ⟨[jobA]⟩ "job-a",
         disk := CronStore.eraseJob ⟨[jobA]⟩ "job-a" }, .ok (some jobA))) :=
  ⟨(c6_remove_ownership ⟨⟨[jobA]⟩, ⟨[jobA]⟩⟩ "job-a" "signal" "u2" jobA
      true).1 (by decide) (by decide),
   (c6_remove_ownership ⟨⟨[jobA]⟩, ⟨[jobA]⟩⟩ "nope" "signal" "u2" jobA
      true).2.1 (by decide),
   (c6_remove_ownership ⟨⟨[jobA]⟩, ⟨[jobA]⟩⟩ "job-a" "telegram" "u1" jobA
      true).2.2 (by decide) (by decide) (by decide)⟩

/-! ## Helper lemmas about store updates -/

/-- Lookup after an id-preserving in-place update. -/
theorem find?_map_update (l : List CronJob) (id : String)
    (f : CronJob → CronJob) (hf : ∀ j, (f j).id = j.id) :
    (l.map (fun j => if j.id == id then f j else j)).find?
      (fun j => j.id == id) =
      (l.find? (fun j => j.id == id)).map f := by
  induction l with
  | nil => rfl
  | cons j rest ih =>
    by_cases h : j.id = id
    · rw [List.map_cons, List.find?_cons_of_pos _ (by simp [h, hf]),
        List.find?_cons_of_pos _ (by simp [h])]
      simp [h]
    · rw [List.map_cons, List.find?_cons_of_neg _ (by simp [h, hf]),
        List.find?_cons_of_neg _ (by simp [h])]
      exact ih

/-- Lookup after `CronStore.updateJob` with an id-preserving function. -/
theorem getJob_updateJob (s : CronStore) (id : String)
    (f : CronJob → CronJob) (hf : ∀ j, (f j).id = j.id) :
    (s.updateJob id f).getJob id = (s.getJob id).map f :=
  find?_map_update s.jobs id f hf

/-- The mark transaction preserves the job id. -/
theorem execJobMark_id (j : CronJob) : (execJobMark j).id = j.id := rfl

/-- The finish transaction preserves the job id. -/
theorem execJobFinish_id (env : CronEnv) (result : Except String String)
    (st et : Nat) (j : CronJob) :
    (execJobFinish env result st et j).id = j.id := by
  unfold execJobFinish
  rcases j.schedule with ts | i | e <;> rcases result with r | e' <;> rfl

/-- The mark transaction preserves the schedule. -/
theorem execJobMark_schedule (j : CronJob) :
    (execJobMark j).schedule = j.schedule := rfl

/-- C1, counterexample: a one-shot `At` job whose backend invocation
fails is NOT disabled by `execute_job` — the source disables only on
`result.is_ok()` (src/cron/mod.rs:305), so after a failed run the stored
job still has `enabled = true`, contradicting the claim that
`enabled = false` regardless of outcome. -/
theorem c1_failed_at_job_counterexample :
    ((execute_job envTrivial ⟨[jobAt]⟩ "job-at" (.error "backend failed")
        600 1000).getJob "job-at").map (fun j => j.enabled) = some true ∧
    ((execute_job envTrivial ⟨[jobAt]⟩ "job-at" (.error "backend failed")
        600 1000).getJob "job-at").map (fun j => j.state.next_run_at) =
      some none := by decide

/-- C1 (amended): after `execute_job` completes on an `At(ts)` job whose
completion time is at or after `ts`, the stored job has
`next_run_at = None` and is never again due (hence never again returned
by `get_due_jobs` at any time); `enabled` is forced to `false` only when
the backend invocation succeeded — on failure it keeps its previous
value. -/
theorem c1_at_job_after_execute (env : CronEnv) (store : CronStore)
    (id : String) (ts : Nat) (j : CronJob) (result : Except String String)
    (st et : Nat) (hj : store.getJob id = some j)
    (hsched : j.schedule = .At ts) (hdue : ts ≤ et) :
    ∃ j', (execute_job env store id result st et).getJob id = some j' ∧
      j'.state.next_run_at = none ∧
      (∀ r, result = .ok r → j'.enabled = false) ∧
      (∀ e, result = .error e → j'.enabled = j.enabled) ∧
      ∀ now, j'.is_due now = false := by
  have hmark : ∀ k, (execJobMark k).id = k.id := execJobMark_id
  have hfin : ∀ k, (execJobFinish env result st et k).id = k.id :=
    execJobFinish_id env result st et
  have hget : (execute_job env store id result st et).getJob id =
      some (execJobFinish env result st et (execJobMark j)) := by
    unfold execute_job
    rw [getJob_updateJob _ _ _ hfin, getJob_updateJob _ _ _ hmark, hj]
    rfl
  refine ⟨_, hget, ?_, ?_, ?_, ?_⟩
  · unfold execJobFinish
    rcases result with r | e <;>
      simp [execJobMark, hsched, CronSchedule.next_run_after,
        Nat.not_lt.mpr hdue]
  · intro r hr
    subst hr
    unfold execJobFinish
    simp [execJobMark, hsched]
  · intro e he
    subst he
    unfold execJobFinish
    simp [execJobMark, hsched]
  · intro now
    unfold CronJob.is_due
    unfold execJobFinish
    rcases result with r | e <;>
      simp [execJobMark, hsched, CronSchedule.next_run_after,
        Nat.not_lt.mpr hdue]

/-- C1 witness: the amended statement at a concrete store, job and
failing result. -/
theorem c1_at_job_after_execute_witness :
    ∃ j', (execute_job envTrivial ⟨[jobAt]⟩ "job-at" (.error "backend failed")
        600 1000).getJob "job-at" = some j' ∧
      j'.state.next_run_at = none ∧
      (∀ r, (Except.error "backend failed" : Except String String) = .ok r →
        j'.enabled = false) ∧
      (∀ e, (Except.error "backend failed" : Except String String) =
        .error e → j'.enabled = jobAt.enabled) ∧
      ∀ now, j'.is_due now = false :=
  c1_at_job_after_execute envTrivial ⟨[jobAt]⟩ "job-at" 500 jobAt
    (.error "backend failed") 600 1000 (by decide) (by decide) (by decide)

/-! ## Helper lemmas about the scheduler machine -/

/-- Every spawned task carries one of the due jobs it was spawned for. -/
theorem spawnTasks_job_mem (base : Nat) (l : List CronJob) (t : STask)
    (ht : t ∈ spawnTasks base l) : t.job ∈ l := by
  induction l generalizing base with
  | nil => cases ht
  | cons j rest ih =>
    cases ht with
    | head => exact List.mem_cons_self ..
    | tail _ h => exact List.mem_cons_of_mem _ (ih _ h)

/-- After the mark transaction for job id `jid`, no job with that id is
due any more (its `next_run_at` is cleared). -/
theorem mark_not_due (s : CronStore) (jid : String) (now : Nat)
    (j : CronJob) (hj : j ∈ (s.updateJob jid execJobMark).get_due_jobs now) :
    ¬(j.id = jid) := by
  intro hid
  have hmem := (List.mem_filter.mp hj).1
  have hdue := (List.mem_filter.mp hj).2
  rcases List.mem_map.mp hmem with ⟨orig, _, heq⟩
  by_cases ho : orig.id = jid
  · rw [if_pos (by simpa using ho)] at heq
    subst heq
    simp [CronJob.is_due, execJobMark] at hdue
  · rw [if_neg (by simpa using ho)] at heq
    subst heq
    exact ho (by simpa using hid)

/-- C3, counterexample: the tick loop spawns execution tasks without
touching the stored job first — after one tick the job's task exists but
its `last_status` is still `Pending` and `next_run_at` is still set (the
Running marking happens inside the spawned task, src/cron/mod.rs:245-253,
not before the spawn at src/cron/mod.rs:125-127), and a second tick
before the task has run selects the same job again and spawns a second
task for it. -/
theorem c3_mark_after_spawn_counterexample :
    ((schedStep envTrivial ⟨⟨[jobA]⟩, ⟨[jobA]⟩, [], 0⟩
        (.tick 100)).mem.getJob "job-a").map
        (fun j => (j.state.last_status, j.state.next_run_at)) =
      some (.Pending, some 50) ∧
    (schedStep envTrivial ⟨⟨[jobA]⟩, ⟨[jobA]⟩, [], 0⟩
        (.tick 100)).tasks.length = 1 ∧
    ((schedStep envTrivial (schedStep envTrivial ⟨⟨[jobA]⟩, ⟨[jobA]⟩, [], 0⟩
        (.tick 100)) (.tick 200)).tasks.filter
        (fun u => u.job.id == "job-a")).length = 2 := by decide

/-- C3 (amended): the Running marking and the clearing of `next_run_at`
happen as the first transaction of the spawned execution task, before the
backend invocation — the completion transaction is a no-op while the task
has not yet marked — and a still-running job is not re-selected on a
subsequent tick provided that its mark transaction, with a successful
save, completed before that tick's reload: after a saved mark, a tick
spawns no further task for that job. -/
theorem c3_mark_running_protocol (env : CronEnv) (s : SchedState)
    (tid : Nat) (t : STask)
    (ht : s.tasks.find? (fun u => u.tid == tid) = some t)
    (hphase : t.phase = .start) :
    (∀ result st et so, schedStep env s (.finish tid result st et so) = s) ∧
    ((schedStep env s (.mark tid true)).mem.getJob t.job.id =
      (s.mem.getJob t.job.id).map execJobMark ∧
     (schedStep env s (.mark tid true)).disk =
      (schedStep env s (.mark tid true)).mem) ∧
    (∀ j, (execJobMark j).state.last_status = .Running ∧
      (execJobMark j).state.next_run_at = none) ∧
    ∀ now, (schedStep env (schedStep env s (.mark tid true))
        (.tick now)).tasks.filter (fun u => u.job.id == t.job.id) =
      (schedStep env s (.mark tid true)).tasks.filter
        (fun u => u.job.id == t.job.id) := by
  refine ⟨?_, ⟨?_, ?_⟩, fun j => ⟨rfl, rfl⟩, ?_⟩
  · intro result st et so
    simp [schedStep, ht, hphase]
  · simp only [schedStep, ht, hphase, if_pos]
    exact getJob_updateJob _ _ _ execJobMark_id
  · simp [schedStep, ht, hphase]
  · intro now
    have hdisk : (schedStep env s (.mark tid true)).disk =
        s.mem.updateJob t.job.id execJobMark := by
      simp [schedStep, ht, hphase]
    have htick :
        (schedStep env (schedStep env s (.mark tid true)) (.tick now)).tasks =
          (schedStep env s (.mark tid true)).tasks ++
            spawnTasks (schedStep env s (.mark tid true)).nextTid
              ((schedStep env s (.mark tid true)).disk.get_due_jobs now) := rfl
    rw [htick, List.filter_append, hdisk]
    have hspawn : ∀ u ∈ spawnTasks (schedStep env s (.mark tid true)).nextTid
        ((s.mem.updateJob t.job.id execJobMark).get_due_jobs now),
        ¬(u.job.id == t.job.id) = true := by
      intro u hu hb
      exact mark_not_due _ _ _ _
        (spawnTasks_job_mem _ _ _ hu) (by simpa using hb)
    rw [List.filter_eq_nil_iff.mpr hspawn, List.append_nil]

/-- C3 witness: the amended protocol at a concrete state holding one
freshly spawned, not yet marked task. -/
theorem c3_mark_running_protocol_witness :
    (∀ result st et so,
      schedStep envTrivial ⟨⟨[jobA]⟩, ⟨[jobA]⟩, [⟨0, jobA, .start⟩], 1⟩
        (.finish 0 result st et so) =
        ⟨⟨[jobA]⟩, ⟨[jobA]⟩, [⟨0, jobA, .start⟩], 1⟩) ∧
    ((schedStep envTrivial ⟨⟨[jobA]⟩, ⟨[jobA]⟩, [⟨0, jobA, .start⟩], 1⟩
        (.mark 0 true)).mem.getJob jobA.id =
      ((⟨[jobA]⟩ : CronStore).getJob jobA.id).map execJobMark ∧
     (schedStep envTrivial ⟨⟨[jobA]⟩, ⟨[jobA]⟩, [⟨0, jobA, .start⟩], 1⟩
        (.mark 0 true)).disk =
      (schedStep envTrivial ⟨⟨[jobA]⟩, ⟨[jobA]⟩, [⟨0, jobA, .start⟩], 1⟩
        (.mark 0 true)).mem) ∧
    (∀ j, (execJobMark j).state.last_status = .Running ∧
      (execJobMark j).state.next_run_at = none) ∧
    ∀ now, (schedStep envTrivial (schedStep envTrivial
        ⟨⟨[jobA]⟩, ⟨[jobA]⟩, [⟨0, jobA, .start⟩], 1⟩ (.mark 0 true))
        (.tick now)).tasks.filter (fun u => u.job.id == jobA.id) =
      (schedStep envTrivial ⟨⟨[jobA]⟩, ⟨[jobA]⟩, [⟨0, jobA, .start⟩], 1⟩
        (.mark 0 true)).tasks.filter (fun u => u.job.id == jobA.id) :=
  c3_mark_running_protocol envTrivial
    ⟨⟨[jobA]⟩, ⟨[jobA]⟩, [⟨0, jobA, .start⟩], 1⟩ 0 ⟨0, jobA, .start⟩
    (by decide) rfl

/-- C10: `truncate_for_name` is NOT total on multi-byte UTF-8 input —
the byte slice `&s[..max_len - 3]` (src/cron/mod.rs:403) panics when
`max_len - 3` is not a character boundary.  The call site
(src/channels/mod.rs:525) passes arbitrary user prompt text with
`max_len = 30`, so a 16-character Greek prompt (32 UTF-8 bytes; boundary
27 falls inside a 2-byte character) crashes, while the intended behaviour
(shown on ASCII, matching the source's own unit test) truncates to at
most `max_len` bytes ending in "...". -/
theorem c10_truncate_panics_on_multibyte :
    truncate_for_name (List.replicate 16 'α') 30 = none ∧
    truncate_for_name "this is a long name".toList 10 =
      some "this is...".toList ∧
    truncate_for_name "short".toList 10 = some "short".toList := by decide

/-! ## Helper lemmas about the task-manager machine -/

/-- Setting a key makes it map to the new value. -/
theorem alistGet_map_set {α : Type} (l : List (String × α)) (u : String)
    (a : α) (h : (l.find? (fun p => p.1 == u)).isSome) :
    alistGet (l.map (fun p => if p.1 == u then (u, a) else p)) u = some a := by
  induction l with
  | nil => simp [List.find?] at h
  | cons p rest ih =>
    by_cases hp : p.1 = u
    · unfold alistGet
      rw [List.map_cons, List.find?_cons_of_pos _ (by simp [hp])]
      simp [hp]
    · unfold alistGet
      rw [List.map_cons, List.find?_cons_of_neg _ (by simp [hp])]
      rw [List.find?_cons_of_neg _ (by simp [hp])] at h
      exact ih h

/-- Appending a fresh binding makes an absent key map to it. -/
theorem alistGet_append_single {α : Type} (l : List (String × α))
    (u : String) (a : α) (h : l.find? (fun p => p.1 == u) = none) :
    alistGet (l ++ [(u, a)]) u = some a := by
  induction l with
  | nil => simp [alistGet, List.find?]
  | cons p rest ih =>
    by_cases hp : p.1 = u
    · rw [List.find?_cons_of_pos _ (by simp [hp])] at h
      cases h
    · rw [List.find?_cons_of_neg _ (by simp [hp])] at h
      unfold alistGet
      rw [List.cons_append, List.find?_cons_of_neg _ (by simp [hp])]
      exact ih h

/-- `alistSet` maps the written key to the new value. -/
theorem alistGet_set_self {α : Type} (l : List (String × α)) (u : String)
    (a : α) : alistGet (alistSet l u a) u = some a := by
  unfold alistSet
  by_cases h : (l.find? (fun p => p.1 == u)).isSome
  · rw [if_pos h]
    exact alistGet_map_set l u a h
  · rw [if_neg h]
    exact alistGet_append_single l u a (by
      cases hf : l.find? (fun p => p.1 == u) with
      | none => rfl
      | some q => rw [hf] at h; simp at h)

/-- Overwriting key `u` in place does not affect lookups of `v ≠ u`. -/
theorem alistGet_map_set_ne {α : Type} (l : List (String × α))
    (u v : String) (a : α) (h : v ≠ u) :
    alistGet (l.map (fun p => if p.1 == u then (u, a) else p)) v =
      alistGet l v := by
  induction l with
  | nil => rfl
  | cons p rest ih =>
    by_cases hp : p.1 = u
    · unfold alistGet
      rw [List.map_cons, List.find?_cons_of_neg _ (by simp [hp, Ne.symm h]),
        List.find?_cons_of_neg _ (by simp [hp, Ne.symm h])]
      exact ih
    · by_cases hv : p.1 = v
      · unfold alistGet
        rw [List.map_cons, List.find?_cons_of_pos _ (by simp [hp, hv, h]),
          List.find?_cons_of_pos _ (by simp [hv])]
        simp [hp]
      · unfold alistGet
        rw [List.map_cons, List.find?_cons_of_neg _ (by simp [hp, hv]),
          List.find?_cons_of_neg _ (by simp [hv])]
        exact ih

/-- Appending a binding for key `u` does not affect lookups of `v ≠ u`. -/
theorem alistGet_append_ne {α : Type} (l : List (String × α))
    (u v : String) (a : α) (h : v ≠ u) :
    alistGet (l ++ [(u, a)]) v = alistGet l v := by
  induction l with
  | nil =>
    have hb : (u == v) = false := by simp [Ne.symm h]
    simp [alistGet, List.find?, hb]
  | cons p rest ih =>
    by_cases hv : p.1 = v
    · unfold alistGet
      rw [List.cons_append, List.find?_cons_of_pos _ (by simp [hv]),
        List.find?_cons_of_pos _ (by simp [hv])]
    · unfold alistGet
      rw [List.cons_append, List.find?_cons_of_neg _ (by simp [hv]),
        List.find?_cons_of_neg _ (by simp [hv])]
      exact ih

/-- `alistSet` leaves other keys unchanged. -/
theorem alistGet_set_ne {α : Type} (l : List (String × α)) (u v : String)
    (a : α) (h : v ≠ u) : alistGet (alistSet l u a) v = alistGet l v := by
  unfold alistSet
  by_cases hs : (l.find? (fun p => p.1 == u)).isSome
  · rw [if_pos hs]
    exact alistGet_map_set_ne l u v a h
  · rw [if_neg hs]
    exact alistGet_append_ne l u v a h

/-- `alistRemove` leaves other keys unchanged. -/
theorem alistGet_remove_ne {α : Type} (l : List (String × α)) (u v : String)
    (h : v ≠ u) : alistGet (alistRemove l u) v = alistGet l v := by
  induction l with
  | nil => rfl
  | cons p rest ih =>
    by_cases hp : p.1 = u
    · unfold alistRemove alistGet
      rw [List.filter_cons_of_neg (by simp [hp]),
        List.find?_cons_of_neg _ (by simp [hp, Ne.symm h])]
      exact ih
    · by_cases hv : p.1 = v
      · unfold alistRemove alistGet
        rw [List.filter_cons_of_pos (by simp [hp]),
          List.find?_cons_of_pos _ (by simp [hv]),
          List.find?_cons_of_pos _ (by simp [hv])]
      · unfold alistRemove alistGet
        rw [List.filter_cons_of_pos (by simp [hp]),
          List.find?_cons_of_neg _ (by simp [hv]),
          List.find?_cons_of_neg _ (by simp [hv])]
        exact ih

/-- Pairwise-distinct task ids identify tasks. -/
theorem pairwise_pid_eq {l : List PTask}
    (hpair : List.Pairwise (fun p q => p.pid ≠ q.pid) l) (p q : PTask)
    (hp : p ∈ l) (hq : q ∈ l) (h : p.pid = q.pid) : p = q := by
  by_contra hne
  exact List.Pairwise.forall (fun _ _ hab => hab.symm) hpair hp hq hne h

/-- `TMInv` is preserved by phase-only rewrites of the task list that
never revive a task, with the `tasks` map untouched. -/
theorem inv_map_phase (s : TMState) (hinv : TMInv s) (g : PTask → PTask)
    (hpid : ∀ p, (g p).pid = p.pid) (huser : ∀ p, (g p).user = p.user)
    (hlive : ∀ p ∈ s.procs, (g p).isLive = true → p.isLive = true)
    (pending' : List (String × List String)) (events' : List TMEvent) :
    TMInv { s with procs := s.procs.map g, pending := pending',
                   events := events' } := by
  obtain ⟨hbound, hpair, hinvlive⟩ := hinv
  refine ⟨?_, ?_, ?_⟩
  · intro p' hp'
    rcases List.mem_map.mp hp' with ⟨p, hp, rfl⟩
    rw [hpid]
    exact hbound p hp
  · exact List.Pairwise.map g (fun a b hab => by rw [hpid, hpid]; exact hab)
      hpair
  · intro p' hp' hl'
    rcases List.mem_map.mp hp' with ⟨p, hp, rfl⟩
    rw [hpid, huser]
    exact hinvlive p hp (hlive p hp hl')

/-- Any single task-manager action preserves the invariant. -/
theorem tmStep_inv (s : TMState) (a : TMAction) (h : TMInv s) :
    TMInv (tmStep s a) := by
  obtain ⟨hbound, hpair, hlive⟩ := h
  cases a with
  | push u m => exact ⟨hbound, hpair, hlive⟩
  | swap u =>
    have gpid : ∀ p : PTask,
        (if alistGet s.running u == some p.pid && !(p.phase == PPhase.done) then
          { p with phase := PPhase.aborted } else p).pid = p.pid := by
      intro p; split <;> rfl
    have guser : ∀ p : PTask,
        (if alistGet s.running u == some p.pid && !(p.phase == PPhase.done) then
          { p with phase := PPhase.aborted } else p).user = p.user := by
      intro p; split <;> rfl
    refine ⟨?_, ?_, ?_⟩
    · intro p' hp'
      show p'.pid < s.nextPid + 1
      rcases List.mem_append.mp hp' with hin | hin
      · rcases List.mem_map.mp hin with ⟨p, hp, rfl⟩
        have hlt := hbound p hp
        rw [gpid]
        omega
      · obtain rfl := List.mem_singleton.mp hin
        exact Nat.lt_succ_self _
    · show List.Pairwise _ (_ ++ [_])
      rw [List.pairwise_append]
      refine ⟨List.Pairwise.map _ (fun a b hab => by
          rw [gpid, gpid]; exact hab) hpair,
        List.pairwise_singleton _ _, ?_⟩
      intro p' hp' q hq
      rcases List.mem_map.mp hp' with ⟨p, hp, rfl⟩
      obtain rfl := List.mem_singleton.mp hq
      have hlt := hbound p hp
      show _ ≠ _
      rw [gpid]
      exact Nat.ne_of_lt hlt
    · intro p' hp' hl'
      rcases List.mem_append.mp hp' with hin | hin
      · rcases List.mem_map.mp hin with ⟨p, hp, rfl⟩
        by_cases hc : (alistGet s.running u == some p.pid &&
            !(p.phase == PPhase.done)) = true
        · rw [if_pos hc] at hl'
          simp [PTask.isLive] at hl'
        · rw [if_neg hc] at hl'
          have hget := hlive p hp hl'
          show alistGet (alistSet s.running u s.nextPid) _ = some _
        
          rw [guser, gpid]
          by_cases huv : p.user = u
          · exfalso
            apply hc
            rw [huv] at hget
            rw [hget]
            have hnd : (p.phase == PPhase.done) = false := by
              cases hph : p.phase <;> simp_all [PTask.isLive]
            simp [hnd]
          · rw [alistGet_set_ne _ _ _ _ huv]
            exact hget
      · obtain rfl := List.mem_singleton.mp hin
        exact alistGet_set_self s.running u s.nextPid
  | wake pid =>
    cases hfind : s.procs.find? (fun p => p.pid == pid) with
    | none =>
      simp only [tmStep, hfind]
      exact ⟨hbound, hpair, hlive⟩
    | some t =>
      simp only [tmStep, hfind]
      by_cases hph : t.phase = PPhase.sleeping
      · rw [if_pos hph]
        split
        · exact inv_map_phase s ⟨hbound, hpair, hlive⟩ _
            (fun p => by split <;> rfl)
            (fun p => by split <;> rfl)
            (fun p hp hl => by
              split at hl
              · simp [PTask.isLive] at hl
              · exact hl) _ _
        · exact inv_map_phase s ⟨hbound, hpair, hlive⟩ _
            (fun p => by split <;> rfl)
            (fun p => by split <;> rfl)
            (fun p hp hl => by
              split at hl
              · next hb =>
                have htp : t.pid = pid := by
                  simpa using List.find?_some hfind
                have hpt : p = t := pairwise_pid_eq hpair p t hp
                  (List.mem_of_find?_eq_some hfind)
                  (by rw [htp]; simpa using hb)
                subst hpt
                simp [PTask.isLive, hph]
              · exact hl) _ _
      · rw [if_neg hph]
        exact ⟨hbound, hpair, hlive⟩
  | finishH pid =>
    cases hfind : s.procs.find? (fun p => p.pid == pid) with
    | none =>
      simp only [tmStep, hfind]
      exact ⟨hbound, hpair, hlive⟩
    | some t =>
      simp only [tmStep, hfind]
      cases hph : t.phase with
      | sleeping => exact ⟨hbound, hpair, hlive⟩
      | done => exact ⟨hbound, hpair, hlive⟩
      | aborted => exact ⟨hbound, hpair, hlive⟩
      | handling b =>
        have htmem : t ∈ s.procs := List.mem_of_find?_eq_some hfind
        have gpid : ∀ p : PTask,
            (if p.pid == pid then { p with phase := PPhase.done } else p).pid =
              p.pid := by
          intro p; split <;> rfl
        have guser : ∀ p : PTask,
            (if p.pid == pid then { p with phase := PPhase.done } else p).user =
              p.user := by
          intro p; split <;> rfl
        refine ⟨?_, ?_, ?_⟩
        · intro p' hp'
          show p'.pid < s.nextPid
          rcases List.mem_map.mp hp' with ⟨p, hp, rfl⟩
          rw [gpid]
          exact hbound p hp
        · exact List.Pairwise.map _ (fun a b hab => by
            rw [gpid, gpid]; exact hab) hpair
        · intro p' hp' hl'
          rcases List.mem_map.mp hp' with ⟨p, hp, rfl⟩
          show alistGet (alistRemove s.running t.user) _ = some _
          rw [guser, gpid]
          split at hl'
          · simp [PTask.isLive] at hl'
          · next hb =>
            have hget := hlive p hp hl'
            by_cases huv : p.user = t.user
            · exfalso
              have hgt : alistGet s.running t.user = some t.pid :=
                hlive t htmem (by simp [PTask.isLive, hph])
              rw [huv] at hget
              rw [hget] at hgt
              have hpt : p = t := pairwise_pid_eq hpair p t hp htmem
                (Option.some.inj hgt)
              rw [hpt] at hb
              exact hb (by simpa using List.find?_some hfind)
            · rw [alistGet_remove_ne _ _ _ huv]
              exact hget

/-- The invariant holds in every reachable task-manager state. -/
theorem tmRun_inv (acts : List TMAction) : TMInv (tmRun acts) := by
  have main : ∀ s, TMInv s → TMInv (acts.foldl tmStep s) := by
    induction acts with
    | nil => exact fun s h => h
    | cons a rest ih => exact fun s h => ih _ (tmStep_inv s a h)
  exact main {} ⟨by simp, by simp, by simp⟩

/-- C5: three `process_message` calls for one user within the debounce
window (modelled as: all six critical sections run before any debounce
sleep expires) produce exactly one handler invocation carrying all three
messages in arrival order — the first two spawned tasks are aborted while
still sleeping and their wake-ups are no-ops; two calls for different
users produce two independent handler invocations with no task aborted;
and in every reachable state (any action sequence), no two handler
invocations for the same user key run concurrently. -/
theorem c5_debounce_and_isolation :
    (tmRun [.push "tg:u1" "m1", .swap "tg:u1", .push "tg:u1" "m2",
        .swap "tg:u1", .push "tg:u1" "m3", .swap "tg:u1",
        .wake 0, .wake 1, .wake 2, .finishH 2]).events =
      [.handlerStart 2 "tg:u1" ["m1", "m2", "m3"], .handlerEnd 2] ∧
    (tmRun [.push "tg:u1" "a", .swap "tg:u1", .push "sig:u2" "b",
        .swap "sig:u2", .wake 0, .finishH 0, .wake 1, .finishH 1]).events =
      [.handlerStart 0 "tg:u1" ["a"], .handlerEnd 0,
       .handlerStart 1 "sig:u2" ["b"], .handlerEnd 1] ∧
    (tmRun [.push "tg:u1" "a", .swap "tg:u1", .push "sig:u2" "b",
        .swap "sig:u2", .wake 0, .finishH 0, .wake 1,
        .finishH 1]).procs.filter (fun p => p.phase == .aborted) = [] ∧
    ∀ acts : List TMAction, ∀ p ∈ (tmRun acts).procs,
      ∀ q ∈ (tmRun acts).procs,
      p.isHandling = true → q.isHandling = true → p.user = q.user → p = q := by
  refine ⟨by decide, by decide, by decide, ?_⟩
  intro acts p hp q hq hph hqh hu
  obtain ⟨_, hpair, hlive⟩ := tmRun_inv acts
  have hlp : p.isLive = true := by
    unfold PTask.isHandling at hph
    unfold PTask.isLive
    cases hpl : p.phase <;> rw [hpl] at hph <;> simp_all
  have hlq : q.isLive = true := by
    unfold PTask.isHandling at hqh
    unfold PTask.isLive
    cases hql : q.phase <;> rw [hql] at hqh <;> simp_all
  have hgp := hlive p hp hlp
  have hgq := hlive q hq hlq
  rw [hu, hgq] at hgp
  exact pairwise_pid_eq hpair p q hp hq (Option.some.inj hgp).symm

/-- C5 witness: the reachable-state mutual exclusion applied in the state
reached by one call whose handler is running. -/
theorem c5_debounce_and_isolation_witness :
    (⟨0, "tg:u1", .handling ["m"]⟩ : PTask) =
      ⟨0, "tg:u1", .handling ["m"]⟩ :=
  c5_debounce_and_isolation.2.2.2
    [.push "tg:u1" "m", .swap "tg:u1", .wake 0]
    ⟨0, "tg:u1", .handling ["m"]⟩ (by decide)
    ⟨0, "tg:u1", .handling ["m"]⟩ (by decide)
    (by decide) (by decide) rfl

/-! ## Helper lemmas about the civil calendar -/

/-- A year has at least one day. -/
theorem daysInYear_pos (y : Nat) : 0 < daysInYear y := by
  unfold daysInYear
  split <;> omega

/-- Peeling a year sum from the front. -/
theorem daysInYearsFrom_succ_left (start n : Nat) :
    daysInYearsFrom start (n + 1) =
      daysInYear start + daysInYearsFrom (start + 1) n := by
  induction n with
  | zero => simp [daysInYearsFrom]
  | succ n ih =>
    have h1 : start + (n + 1) = start + 1 + n := by omega
    calc daysInYearsFrom start (n + 1 + 1)
        = daysInYearsFrom start (n + 1) + daysInYear (start + (n + 1)) := rfl
      _ = daysInYear start + daysInYearsFrom (start + 1) n +
            daysInYear (start + 1 + n) := by rw [ih, h1]
      _ = daysInYear start + daysInYearsFrom (start + 1) (n + 1) := by
            show _ = daysInYear start +
              (daysInYearsFrom (start + 1) n + daysInYear (start + 1 + n))
            omega

/-- The year loop resolves a day count into a year and a day-of-year. -/
theorem yearFromDays_spec (fuel y d : Nat) (hf : d ≤ fuel) :
    y ≤ (yearFromDays fuel y d).1 ∧
    (yearFromDays fuel y d).2 < daysInYear (yearFromDays fuel y d).1 ∧
    daysInYearsFrom y ((yearFromDays fuel y d).1 - y) +
      (yearFromDays fuel y d).2 = d := by
  induction fuel generalizing y d with
  | zero =>
    have hd : d = 0 := Nat.le_zero.mp hf
    subst hd
    exact ⟨Nat.le_refl y, daysInYear_pos y, by simp [yearFromDays, daysInYearsFrom]⟩
  | succ fuel ih =>
    by_cases hlt : d < daysInYear y
    · simp only [yearFromDays, if_pos hlt]
      exact ⟨Nat.le_refl y, hlt, by simp [daysInYearsFrom]⟩
    · simp only [yearFromDays, if_neg hlt]
      have hy := daysInYear_pos y
      have hge : daysInYear y ≤ d := Nat.le_of_not_lt hlt
      obtain ⟨h1, h2, h3⟩ := ih (y + 1) (d - daysInYear y) (by omega)
      refine ⟨by omega, h2, ?_⟩
      have hyy : (yearFromDays fuel (y + 1) (d - daysInYear y)).1 - y =
          ((yearFromDays fuel (y + 1) (d - daysInYear y)).1 - (y + 1)) + 1 := by
        omega
      rw [hyy, daysInYearsFrom_succ_left]
      omega

/-- The month table sums to the year length. -/
theorem daysBeforeMonth_13 (y : Nat) : daysBeforeMonth y 13 = daysInYear y := by
  by_cases h : isLeap y <;>
    simp [daysBeforeMonth, daysInMonth, daysInYear, h]

set_option linter.unnecessarySeqFocus false in
/-- Every real month is nonempty. -/
theorem daysInMonth_pos (y m : Nat) (h1 : 1 ≤ m) (h2 : m ≤ 12) :
    0 < daysInMonth y m := by
  interval_cases m <;> simp [daysInMonth] <;> split <;> omega

/-- The month loop resolves a day-of-year into a month and day offset. -/
theorem monthFromDoy_spec (fuel : Nat) (y : Nat) (m d : Nat) (h1 : 1 ≤ m)
    (h13 : 13 ≤ m + fuel) (h2 : m ≤ 12)
    (hd : daysBeforeMonth y m + d < daysInYear y) :
    1 ≤ (monthFromDoy fuel y m d).1 ∧ (monthFromDoy fuel y m d).1 ≤ 12 ∧
    (monthFromDoy fuel y m d).2 <
      daysInMonth y (monthFromDoy fuel y m d).1 ∧
    daysBeforeMonth y (monthFromDoy fuel y m d).1 +
      (monthFromDoy fuel y m d).2 = daysBeforeMonth y m + d := by
  induction fuel generalizing m d with
  | zero => omega
  | succ fuel ih =>
    by_cases hlt : d < daysInMonth y m
    · simp only [monthFromDoy, if_pos hlt]
      exact ⟨h1, h2, hlt, trivial⟩
    · simp only [monthFromDoy, if_neg hlt]
      have hge : daysInMonth y m ≤ d := Nat.le_of_not_lt hlt
      have hstep : daysBeforeMonth y (m + 1) =
          daysBeforeMonth y m + daysInMonth y m := by
        have hm0 : ¬(m = 0) := by omega
        simp [daysBeforeMonth, hm0]
      have hm12 : m ≤ 11 := by
        by_contra hc
        have hm : m = 12 := by omega
        subst hm
        have ha := daysBeforeMonth_13 y
        have hb : daysBeforeMonth y 13 =
            daysBeforeMonth y 12 + daysInMonth y 12 := by
          simp [daysBeforeMonth]
        have hc31 : daysInMonth y 12 = 31 := rfl
        omega
      obtain ⟨g1, g2, g3, g4⟩ := ih (m + 1) (d - daysInMonth y m)
        (by omega) (by omega) (by omega) (by omega)
      exact ⟨g1, g2, g3, by omega⟩

/-- The civil conversion is a section of the day count: converting a day
count to (year, month, day) and back is the identity, and the fields are
in range. -/
theorem civilFromDays_spec (d : Nat) :
    1970 ≤ (civilFromDays d).1 ∧
    1 ≤ (civilFromDays d).2.1 ∧ (civilFromDays d).2.1 ≤ 12 ∧
    1 ≤ (civilFromDays d).2.2 ∧
    (civilFromDays d).2.2 ≤
      daysInMonth (civilFromDays d).1 (civilFromDays d).2.1 ∧
    daysFromCivil (civilFromDays d).1 (civilFromDays d).2.1
      (civilFromDays d).2.2 = d := by
  obtain ⟨hy1, hy2, hy3⟩ := yearFromDays_spec d 1970 d (Nat.le_refl d)
  have hm1 : daysBeforeMonth (yearFromDays d 1970 d).1 1 = 0 := by
    simp [daysBeforeMonth]
  obtain ⟨g1, g2, g3, g4⟩ := monthFromDoy_spec 12 (yearFromDays d 1970 d).1 1
    (yearFromDays d 1970 d).2 (by omega) (by omega) (by omega) (by omega)
  have hc : civilFromDays d =
      ((yearFromDays d 1970 d).1,
       (monthFromDoy 12 (yearFromDays d 1970 d).1 1 (yearFromDays d 1970 d).2).1,
       (monthFromDoy 12 (yearFromDays d 1970 d).1 1 (yearFromDays d 1970 d).2).2
         + 1) := rfl
  rw [hc]
  dsimp only
  refine ⟨hy1, g1, g2, by omega, by omega, ?_⟩
  unfold daysFromCivil daysBeforeYear
  omega

/-- Rendering a whole-minute local timestamp at minute precision and
reading the fields back is the identity, and the rendered fields are
valid. -/
theorem msFromFields_fieldsFromMs (x : Nat) (hx : x % 60000 = 0) :
    validFields (fieldsFromMs x) = true ∧
    msFromFields (fieldsFromMs x) = x := by
  obtain ⟨c1, c2, c3, c4, c5, c6⟩ := civilFromDays_spec (x / 86400000)
  constructor
  · have h24 : x % 86400000 / 3600000 < 24 := by omega
    have h60 : x % 86400000 % 3600000 / 60000 < 60 := by omega
    simp [validFields, fieldsFromMs, c1, c2, c3, c4, c5, h24, h60]
  · show daysFromCivil (civilFromDays (x / 86400000)).1
        (civilFromDays (x / 86400000)).2.1
        (civilFromDays (x / 86400000)).2.2 * 86400000 +
      x % 86400000 / 3600000 * 3600000 +
      x % 86400000 % 3600000 / 60000 * 60000 + 0 * 1000 = x
    rw [c6]
    omega

/-- Round-trip of `format_duration` through `parse_duration` for positive
whole-second intervals in `u64` range. -/
theorem every_roundtrip (env : CronEnv) (off : Int) (ms : Nat)
    (h0 : 0 < ms) (h1000 : ms % 1000 = 0) (hlt : ms < u64Mod) :
    CronSchedule.parse env off (CronSchedule.description off (.Every ms)) =
      .ok (.Every ms) := by
  show CronSchedule.parse env off (format_duration ms) = .ok (.Every ms)
  unfold format_duration
  by_cases hd : 86400000 ≤ ms ∧ ms % 86400000 = 0
  · rw [if_pos hd]
    simp only [CronSchedule.parse, parse_duration, unitMillis, Except.map]
    rw [Nat.div_mul_cancel (Nat.dvd_of_mod_eq_zero hd.2),
      Nat.mod_eq_of_lt hlt]
  · rw [if_neg hd]
    by_cases hh : 3600000 ≤ ms ∧ ms % 3600000 = 0
    · rw [if_pos hh]
      simp only [CronSchedule.parse, parse_duration, unitMillis, Except.map]
      rw [Nat.div_mul_cancel (Nat.dvd_of_mod_eq_zero hh.2),
        Nat.mod_eq_of_lt hlt]
    · rw [if_neg hh]
      by_cases hm : 60000 ≤ ms ∧ ms % 60000 = 0
      · rw [if_pos hm]
        simp only [CronSchedule.parse, parse_duration, unitMillis, Except.map]
        rw [Nat.div_mul_cancel (Nat.dvd_of_mod_eq_zero hm.2),
          Nat.mod_eq_of_lt hlt]
      · rw [if_neg hm]
        have hs : 1000 ≤ ms ∧ ms % 1000 = 0 := ⟨by omega, h1000⟩
        rw [if_pos hs]
        simp only [CronSchedule.parse, parse_duration, unitMillis, Except.map]
        rw [Nat.div_mul_cancel (Nat.dvd_of_mod_eq_zero h1000),
          Nat.mod_eq_of_lt hlt]

set_option maxHeartbeats 1600000 in
/-- Round-trip of the minute-precision local rendering of an `At`
timestamp through `parse_datetime`, for whole-minute timestamps within
chrono's range under a whole-minute local offset. -/
theorem at_roundtrip (env : CronEnv) (off : Int) (ts : Nat)
    (hts : ts % 60000 = 0) (hoff : (60000 : Int) ∣ off)
    (hpos : 0 ≤ (ts : Int) + off) (hmax : (ts : Int) ≤ chronoMaxMs) :
    CronSchedule.parse env off (CronSchedule.description off (.At ts)) =
      .ok (.At ts) := by
  have hmax' : (ts : Int) ≤ 8210266876799999 := hmax
  have hlt63 : ts < 2 ^ 63 := by omega
  have hrange : chronoInRange (u64AsI64 ts) = true := by
    unfold chronoInRange u64AsI64
    rw [if_pos hlt63]
    simp only [Bool.and_eq_true, decide_eq_true_eq]
    exact ⟨by unfold chronoMinMs; omega, hmax⟩
  have hx : ((ts : Int) + off).toNat % 60000 = 0 := by omega
  obtain ⟨hvf, hms⟩ := msFromFields_fieldsFromMs (((ts : Int) + off).toNat) hx
  have hdescr : CronSchedule.description off (.At ts) =
      .atFields (fieldsFromMs (((ts : Int) + off).toNat)) := by
    simp only [CronSchedule.description]
    rw [if_pos hrange]
  rw [hdescr]
  simp only [CronSchedule.parse, parse_datetime, hvf, if_true, hms,
    Except.map]
  have hval : i64AsU64 (((((ts : Int) + off).toNat : Nat) : Int) - off) =
      ts := by
    clear hvf hms hrange hdescr hx
    rw [Int.toNat_of_nonneg hpos]
    unfold i64AsU64 u64Mod
    have h2 : (((2 : Nat) ^ 64 : Nat) : Int) = 18446744073709551616 := by
      norm_num
    rw [h2]
    omega
  rw [hval]

/-- C8, counterexample: three whole-unit schedules that fail the
round-trip as claimed (local offset 0, i.e. a UTC host):

1. `At(30_000)` — a whole number of seconds: `description` renders at
   minute precision ("at 1970-01-01 00:00"), so parsing yields `At(0)`,
   not `At(30_000)`;
2. `At(8_640_000_000_000_000_000)` — a whole number of days in `u64`
   range, but beyond chrono's representable range: `description` falls
   back to the raw number and `parse` fails;
3. `Every(0)` — zero seconds: `format_duration` renders "every 0ms" and
   `parse_duration` rejects the unit `ms`. -/
theorem c8_roundtrip_counterexample :
    (CronSchedule.parse envTrivial 0 (CronSchedule.description 0 (.At 30000)) =
      .ok (.At 0) ∧
     CronSchedule.parse envTrivial 0 (CronSchedule.description 0 (.At 30000)) ≠
      .ok (.At 30000)) ∧
    CronSchedule.parse envTrivial 0
      (CronSchedule.description 0 (.At 8640000000000000000)) =
      .error "Invalid datetime" ∧
    CronSchedule.parse envTrivial 0 (CronSchedule.description 0 (.Every 0)) =
      .error "Invalid unit: ms. Use s/m/h/d" := by
  have h1 : CronSchedule.parse envTrivial 0
      (CronSchedule.description 0 (.At 30000)) = .ok (.At 0) := rfl
  refine ⟨⟨h1, ?_⟩, rfl, rfl⟩
  rw [h1]
  simp

/-- C8 (amended): `parse(description(s))` reproduces `s` for every
`Every` schedule built from a positive whole number of seconds (hence
also of minutes, hours or days) below 2^64 — e.g. `Every(3_600_000)`
renders as "every 1h" and parses back to `Every(3_600_000)` — and for
every `At` schedule whose timestamp is a whole minute within chrono's
representable range, interpreted under a whole-minute local offset `off`
with `ts + off ≥ 0`.  It fails for whole-second (not whole-minute) `At`
timestamps, for timestamps beyond chrono's range, and for `Every(0)`. -/
theorem c8_parse_description_roundtrip (env : CronEnv) (off : Int)
    (ms ts : Nat) (hms0 : 0 < ms) (hms : ms % 1000 = 0) (hmslt : ms < u64Mod)
    (hts : ts % 60000 = 0) (hoff : (60000 : Int) ∣ off)
    (hpos : 0 ≤ (ts : Int) + off) (hmax : (ts : Int) ≤ chronoMaxMs) :
    CronSchedule.parse env off (CronSchedule.description off (.Every ms)) =
      .ok (.Every ms) ∧
    CronSchedule.parse env off (CronSchedule.description off (.At ts)) =
      .ok (.At ts) :=
  ⟨every_roundtrip env off ms hms0 hms hmslt,
   at_roundtrip env off ts hts hoff hpos hmax⟩

/-- C8 witness: the claim's own example `Every(3_600_000)` and the
whole-minute timestamp 60_000 under offset 0. -/
theorem c8_parse_description_roundtrip_witness :
    CronSchedule.parse envTrivial 0
      (CronSchedule.description 0 (.Every 3600000)) =
      .ok (.Every 3600000) ∧
    CronSchedule.parse envTrivial 0 (CronSchedule.description 0 (.At 60000)) =
      .ok (.At 60000) :=
  c8_parse_description_roundtrip envTrivial 0 3600000 60000 (by decide)
    (by decide) (by decide) (by decide) (by decide) (by decide) (by decide)

end Cica
